import Mathlib

/-!
Verification of the pyRDF2Vec walk-extraction core against its
natural-language specification.

The development shallowly embeds the relevant parts of the repository:

* `src/pyrdf2vec/connectors.py` — `SPARQLConnector.get_query`,
  `SPARQLConnector.fetch`, `SPARQLConnector.res2literals` are translated
  directly from the source.
* `src/pyrdf2vec/rdf2vec.py` — `RDF2VecTransformer.fit` and
  `RDF2VecTransformer.transform` are translated directly from the source.
* The graph module (`pyrdf2vec.graphs.KG`, `Vertex`) and the walker module
  (`pyrdf2vec.walkers.AnonymousWalker`) are not part of the source tree
  (only their tests and callers are); those parts are modelled from the
  specification, as marked in their doc comments.
-/

namespace PyRDF2Vec

/-- Modelled from the spec: the graphs module is absent from the source tree.
A knowledge-graph edge is a `(subject, predicate, object)` triple of string
labels, per spec §3: "every edge is represented as a (subject,
predicate-vertex, object) triple". -/
abbrev Triple := String × String × String

/-- Modelled from the spec: a `KG` is given by the collection of its triples
(spec §3: a mutable directed multigraph owning adjacency, populated only via
edge insertion). -/
abbrev KG := List Triple

/-- Modelled from the spec (§4.1 `neighbors_out`): the immediate outgoing
`(predicate, object)` pairs of a vertex. -/
def neighborsOut (kg : KG) (v : String) : List (String × String) :=
  (kg.filter (fun t => t.1 == v)).map (fun t => (t.2.1, t.2.2))

/-- Modelled from the spec (§4.1 `neighbors_in`): the immediate incoming
`(predicate, subject)` pairs of a vertex, for reverse walks. -/
def neighborsIn (kg : KG) (v : String) : List (String × String) :=
  (kg.filter (fun t => t.2.2 == v)).map (fun t => (t.2.1, t.1))

/-- Modelled from the spec (§4.3, §4.3.2, §8): exhaustive enumeration of the
forward walks out of `v`: each walk `[v, p1, o1, p2, o2, …]` is extended until
`max_depth` hops are taken or a dead end is reached (a dead-end root yields
exactly the singleton walk `[v]`). -/
def fwdWalks (kg : KG) : Nat → String → List (List String)
  | 0, v => [[v]]
  | d+1, v =>
    if (neighborsOut kg v).isEmpty then [[v]]
    else (neighborsOut kg v).flatMap
      (fun po => (fwdWalks kg d po.2).map (fun w => v :: po.1 :: w))

/-- Modelled from the spec (§4.3): the reverse traversals out of `v` through
incoming edges, listed root-first; reversing one yields a backward walk that
ends at `v`. -/
def revWalks (kg : KG) : Nat → String → List (List String)
  | 0, v => [[v]]
  | d+1, v =>
    if (neighborsIn kg v).isEmpty then [[v]]
    else (neighborsIn kg v).flatMap
      (fun ps => (revWalks kg d ps.2).map (fun w => v :: ps.1 :: w))

/-- Objects of a walk suffix: every other element starting with the head. -/
def objTail : List String → List String
  | [] => []
  | [o] => [o]
  | o :: _ :: rest => o :: objTail rest

/-- The object vertices of a walk: the elements at positions 2, 4, 6, …. -/
def objsOf (w : List String) : List String := objTail (w.drop 2)

/-- Modelled from the spec (§4.3.2): AnonymousWalker canonicalization of one
walk. The root (position 0) and the predicate labels (odd positions) stay
literal; each object position 2, 4, 6, … is replaced by the numeral of the
rank (starting from 1) of the first appearance of that object among the
walk's objects. -/
def anonWalk (w : List String) : List String :=
  w.mapIdx (fun i x =>
    if 2 ≤ i ∧ i % 2 = 0 then toString ((objsOf w).indexOf x + 1) else x)

/-- Walker configuration (spec §4.3): `max_depth`, optional `max_walks`,
`with_reverse`. -/
structure WalkerCfg where
  maxDepth : Nat
  maxWalks : Option Nat
  withReverse : Bool

/-- Modelled from the spec (§4.3): the optional `max_walks` size cap on a
collection of walks; `none` means unbounded. -/
def capWalks (mw : Option Nat) (l : List (List String)) : List (List String) :=
  match mw with
  | none => l
  | some n => l.take n

/-- The distinct forward walks of the graph out of `root`, up to `d` hops. -/
def rawFwd (kg : KG) (d : Nat) (root : String) : List (List String) :=
  (fwdWalks kg d root).dedup

/-- The distinct backward walks of the graph into `root`, up to `d` hops. -/
def rawBwd (kg : KG) (d : Nat) (root : String) : List (List String) :=
  ((revWalks kg d root).map List.reverse).dedup

/-- Modelled from the spec (§4.3, §9): the raw walks an extraction run
combines for one root. Forward-only: the size-capped distinct forward walks.
With `with_reverse`: the full cross-product of the size-capped backward and
forward walk sets, fused at the root (the shared root occurs once). -/
def rawCombined (kg : KG) (cfg : WalkerCfg) (root : String) : List (List String) :=
  if cfg.withReverse then
    (capWalks cfg.maxWalks (rawBwd kg cfg.maxDepth root)).flatMap
      (fun b => (capWalks cfg.maxWalks (rawFwd kg cfg.maxDepth root)).map
        (fun f => b ++ f.drop 1))
  else
    capWalks cfg.maxWalks (rawFwd kg cfg.maxDepth root)

/-- Modelled from the spec (§4.3.2): `AnonymousWalker.extract` for one root:
canonicalize every combined raw walk and deduplicate the results. -/
def extract (kg : KG) (cfg : WalkerCfg) (root : String) : List (List String) :=
  ((rawCombined kg cfg root).map anonWalk).dedup

/-- A pure-numeral token: nonempty and made of decimal digits only (the model
of Python's `str.isnumeric` over ASCII labels). -/
def isNumericStr (s : String) : Bool :=
  !s.data.isEmpty && s.data.all Char.isDigit

/-- Every label occurring in the graph's triples. -/
def labelsOf (kg : KG) : List String :=
  kg.flatMap (fun t => [t.1, t.2.1, t.2.2])

/-- The rank (starting from 1) of the first appearance of the walk's `j`-th
object among the objects seen up to and including it — the spec's "rank of
first appearance among the objects seen so far". -/
def firstSeenRank (w : List String) (j : Nat) : Nat :=
  ((objsOf w).take (j+1)).indexOf ((objsOf w).getD j "") + 1

/-! Basic lemmas about the traversal model. -/

theorem fwdWalks_shape (kg : KG) :
    ∀ (d : Nat) (v : String) (w : List String), w ∈ fwdWalks kg d v →
      w.length ≤ 2 * d + 1 ∧ w.head? = some v := by
  intro d
  induction d with
  | zero =>
    intro v w hw
    simp only [fwdWalks, List.mem_singleton] at hw
    subst hw
    simp
  | succ d ih =>
    intro v w hw
    simp only [fwdWalks] at hw
    split at hw
    · simp only [List.mem_singleton] at hw
      subst hw
      refine ⟨by simp only [List.length_singleton]; omega, rfl⟩
    · rw [List.mem_flatMap] at hw
      obtain ⟨po, _, hw⟩ := hw
      rw [List.mem_map] at hw
      obtain ⟨w', hw', rfl⟩ := hw
      obtain ⟨hlen, _⟩ := ih po.2 w' hw'
      exact ⟨by simp only [List.length_cons]; omega, rfl⟩

theorem revWalks_shape (kg : KG) :
    ∀ (d : Nat) (v : String) (w : List String), w ∈ revWalks kg d v →
      w.length ≤ 2 * d + 1 ∧ w.head? = some v := by
  intro d
  induction d with
  | zero =>
    intro v w hw
    simp only [revWalks, List.mem_singleton] at hw
    subst hw
    simp
  | succ d ih =>
    intro v w hw
    simp only [revWalks] at hw
    split at hw
    · simp only [List.mem_singleton] at hw
      subst hw
      refine ⟨by simp only [List.length_singleton]; omega, rfl⟩
    · rw [List.mem_flatMap] at hw
      obtain ⟨ps, _, hw⟩ := hw
      rw [List.mem_map] at hw
      obtain ⟨w', hw', rfl⟩ := hw
      obtain ⟨hlen, _⟩ := ih ps.2 w' hw'
      exact ⟨by simp only [List.length_cons]; omega, rfl⟩

theorem neighborsOut_labels (kg : KG) (v : String) (po : String × String)
    (hpo : po ∈ neighborsOut kg v) : po.1 ∈ labelsOf kg ∧ po.2 ∈ labelsOf kg := by
  simp only [neighborsOut, List.mem_map, List.mem_filter] at hpo
  obtain ⟨t, ⟨ht, _⟩, rfl⟩ := hpo
  constructor <;> · rw [labelsOf, List.mem_flatMap]; exact ⟨t, ht, by simp⟩

theorem neighborsIn_labels (kg : KG) (v : String) (ps : String × String)
    (hps : ps ∈ neighborsIn kg v) : ps.1 ∈ labelsOf kg ∧ ps.2 ∈ labelsOf kg := by
  simp only [neighborsIn, List.mem_map, List.mem_filter] at hps
  obtain ⟨t, ⟨ht, _⟩, rfl⟩ := hps
  constructor <;> · rw [labelsOf, List.mem_flatMap]; exact ⟨t, ht, by simp⟩

theorem fwdWalks_labels (kg : KG) :
    ∀ (d : Nat) (v : String) (w : List String), w ∈ fwdWalks kg d v →
      ∀ x ∈ w, x = v ∨ x ∈ labelsOf kg := by
  intro d
  induction d with
  | zero =>
    intro v w hw x hx
    simp only [fwdWalks, List.mem_singleton] at hw
    subst hw
    simp only [List.mem_singleton] at hx
    exact Or.inl hx
  | succ d ih =>
    intro v w hw x hx
    simp only [fwdWalks] at hw
    split at hw
    · simp only [List.mem_singleton] at hw
      subst hw
      simp only [List.mem_singleton] at hx
      exact Or.inl hx
    · rw [List.mem_flatMap] at hw
      obtain ⟨po, hpo, hw⟩ := hw
      rw [List.mem_map] at hw
      obtain ⟨w', hw', rfl⟩ := hw
      obtain ⟨hp, ho⟩ := neighborsOut_labels kg v po hpo
      simp only [List.mem_cons] at hx
      rcases hx with rfl | h2 | hx
      · exact Or.inl rfl
      · exact Or.inr (h2 ▸ hp)
      · rcases ih po.2 w' hw' x hx with rfl | h
        · exact Or.inr ho
        · exact Or.inr h

theorem revWalks_labels (kg : KG) :
    ∀ (d : Nat) (v : String) (w : List String), w ∈ revWalks kg d v →
      ∀ x ∈ w, x = v ∨ x ∈ labelsOf kg := by
  intro d
  induction d with
  | zero =>
    intro v w hw x hx
    simp only [revWalks, List.mem_singleton] at hw
    subst hw
    simp only [List.mem_singleton] at hx
    exact Or.inl hx
  | succ d ih =>
    intro v w hw x hx
    simp only [revWalks] at hw
    split at hw
    · simp only [List.mem_singleton] at hw
      subst hw
      simp only [List.mem_singleton] at hx
      exact Or.inl hx
    · rw [List.mem_flatMap] at hw
      obtain ⟨ps, hps, hw⟩ := hw
      rw [List.mem_map] at hw
      obtain ⟨w', hw', rfl⟩ := hw
      obtain ⟨hp, hs⟩ := neighborsIn_labels kg v ps hps
      simp only [List.mem_cons] at hx
      rcases hx with rfl | h2 | hx
      · exact Or.inl rfl
      · exact Or.inr (h2 ▸ hp)
      · rcases ih ps.2 w' hw' x hx with rfl | h
        · exact Or.inr hs
        · exact Or.inr h

theorem capWalks_subset (mw : Option Nat) (l : List (List String)) :
    capWalks mw l ⊆ l := by
  cases mw with
  | none => exact fun x hx => hx
  | some n => exact List.take_subset n l

theorem capWalks_length_le (n : Nat) (l : List (List String)) :
    (capWalks (some n) l).length ≤ n := by
  simp [capWalks]

theorem sum_map_constant (l : List (List String)) (c : Nat) :
    (l.map (fun _ => c)).sum = l.length * c := by
  induction l with
  | nil => simp
  | cons a t ih => simp [ih]; ring

theorem objTail_getElem? : ∀ (l : List String) (j : Nat), (objTail l)[j]? = l[2*j]?
  | [], j => by simp [objTail]
  | [o], 0 => by simp [objTail]
  | [o], j+1 => by
    have h2 : 2*(j+1) = 2*j+1+1 := by omega
    simp [objTail, h2]
  | o :: p :: rest, 0 => by simp [objTail]
  | o :: p :: rest, j+1 => by
    have h2 : 2*(j+1) = 2*j+1+1 := by omega
    have ih := objTail_getElem? rest j
    simp [objTail, h2, ih]

theorem objsOf_getElem? (w : List String) (j : Nat) :
    (objsOf w)[j]? = w[2*j+2]? := by
  rw [objsOf, objTail_getElem?, List.getElem?_drop]
  congr 1
  omega

theorem anonWalk_getElem? (w : List String) (i : Nat) :
    (anonWalk w)[i]? = (w[i]?).map
      (fun x => if 2 ≤ i ∧ i % 2 = 0 then toString ((objsOf w).indexOf x + 1) else x) := by
  simp [anonWalk]

theorem anonWalk_length (w : List String) : (anonWalk w).length = w.length := by
  simp [anonWalk]

theorem anonWalk_head? (w : List String) : (anonWalk w).head? = w.head? := by
  cases w with
  | nil => rfl
  | cons a t => simp [anonWalk, List.mapIdx_cons]

theorem indexOf_take_of_mem {l : List String} {k : Nat} {x : String}
    (h : x ∈ l.take k) : (l.take k).indexOf x = l.indexOf x := by
  conv_rhs => rw [← List.take_append_drop k l]
  rw [List.indexOf_append_of_mem h]

theorem anonWalk_objPos (w : List String) (j : Nat) (hj : 2*j+2 < w.length) :
    (anonWalk w)[2*j+2]? = some (toString (firstSeenRank w j)) := by
  obtain ⟨o, ho⟩ : ∃ o, w[2*j+2]? = some o := by
    rw [List.getElem?_eq_getElem hj]
    exact ⟨_, rfl⟩
  have h1 : (objsOf w)[j]? = some o := by rw [objsOf_getElem?, ho]
  have hgetD : (objsOf w).getD j "" = o := by
    rw [List.getD_eq_getElem?_getD, h1]
    rfl
  have hmemtake : o ∈ (objsOf w).take (j+1) := by
    have ht : ((objsOf w).take (j+1))[j]? = some o := by
      rw [List.getElem?_take, if_pos (Nat.lt_succ_self j), h1]
    exact List.getElem?_mem ht
  have hidx : ((objsOf w).take (j+1)).indexOf o = (objsOf w).indexOf o :=
    indexOf_take_of_mem hmemtake
  rw [anonWalk_getElem?, ho]
  simp only [Option.map_some']
  rw [if_pos (by omega : 2 ≤ 2*j+2 ∧ (2*j+2) % 2 = 0)]
  rw [firstSeenRank, hgetD, hidx]

theorem anonWalk_oddPos (w : List String) (i : Nat) (hi : i % 2 = 1) :
    (anonWalk w)[i]? = w[i]? := by
  rw [anonWalk_getElem?]
  have hcond : ¬ (2 ≤ i ∧ i % 2 = 0) := by omega
  cases h : w[i]? <;> simp [hcond]

theorem anonWalk_zeroPos (w : List String) : (anonWalk w)[0]? = w[0]? := by
  rw [anonWalk_getElem?]
  have hcond : ¬ (2 ≤ 0 ∧ 0 % 2 = 0) := by omega
  cases h : w[0]? <;> simp [hcond]

theorem rawCombined_of_fwd (kg : KG) (cfg : WalkerCfg) (root : String)
    (hrev : cfg.withReverse = false) :
    rawCombined kg cfg root = capWalks cfg.maxWalks (rawFwd kg cfg.maxDepth root) := by
  rw [rawCombined, hrev]
  rfl

theorem rawCombined_labels (kg : KG) (cfg : WalkerCfg) (root : String)
    (w0 : List String) (hw0 : w0 ∈ rawCombined kg cfg root) :
    ∀ x ∈ w0, x = root ∨ x ∈ labelsOf kg := by
  intro x hx
  rw [rawCombined] at hw0
  split at hw0
  · rw [List.mem_flatMap] at hw0
    obtain ⟨b, hb, hw0⟩ := hw0
    rw [List.mem_map] at hw0
    obtain ⟨f, hf, rfl⟩ := hw0
    have hb1 : b ∈ rawBwd kg cfg.maxDepth root := capWalks_subset _ _ hb
    rw [rawBwd] at hb1
    have hb2 := List.dedup_subset _ hb1
    rw [List.mem_map] at hb2
    obtain ⟨r, hr, rfl⟩ := hb2
    have hf1 : f ∈ rawFwd kg cfg.maxDepth root := capWalks_subset _ _ hf
    rw [rawFwd] at hf1
    have hf2 := List.dedup_subset _ hf1
    rw [List.mem_append] at hx
    rcases hx with hx | hx
    · exact revWalks_labels kg _ root r hr x (List.mem_reverse.1 hx)
    · exact fwdWalks_labels kg _ root f hf2 x (List.mem_of_mem_drop hx)
  · have hw1 : w0 ∈ rawFwd kg cfg.maxDepth root := capWalks_subset _ _ hw0
    rw [rawFwd] at hw1
    exact fwdWalks_labels kg _ root w0 (List.dedup_subset _ hw1) x hx

/-- C1: for every root and every walk produced by the walker's `extract` with
`with_reverse = False`, the first element of the walk equals the root and the
walk's length is at most `2 * max_depth + 1`. -/
theorem C1_forward_walk_root_and_depth
    (kg : KG) (cfg : WalkerCfg) (root : String) (w : List String)
    (hrev : cfg.withReverse = false) (hw : w ∈ extract kg cfg root) :
    w.head? = some root ∧ w.length ≤ 2 * cfg.maxDepth + 1 := by
  rw [extract] at hw
  have hw' := List.dedup_subset _ hw
  rw [List.mem_map] at hw'
  obtain ⟨w0, hw0, rfl⟩ := hw'
  rw [rawCombined_of_fwd kg cfg root hrev] at hw0
  have h1 : w0 ∈ rawFwd kg cfg.maxDepth root := capWalks_subset _ _ hw0
  rw [rawFwd] at h1
  have h2 := List.dedup_subset _ h1
  obtain ⟨hlen, hhead⟩ := fwdWalks_shape kg _ root w0 h2
  refine ⟨?_, ?_⟩
  · rw [anonWalk_head?, hhead]
  · rw [anonWalk_length]
    exact hlen

/-- Witness for C1: a concrete one-edge graph, rooted at `A` with depth 1. -/
theorem C1_forward_walk_root_and_depth_witness :
    ((⟨1, none, false⟩ : WalkerCfg).withReverse = false) ∧
    (["A", "p", "1"] ∈ extract [("A", "p", "B")] ⟨1, none, false⟩ "A") ∧
    (["A", "p", "1"].head? = some "A" ∧
      (["A", "p", "1"] : List String).length ≤ 2 * (⟨1, none, false⟩ : WalkerCfg).maxDepth + 1) :=
  ⟨rfl, by decide,
    C1_forward_walk_root_and_depth [("A", "p", "B")] ⟨1, none, false⟩ "A"
      ["A", "p", "1"] rfl (by decide)⟩

/-- C2: for every walk produced by `AnonymousWalker.extract` (over a graph
whose labels, like the root, are not pure numerals), the first element is
never a pure-numeral token, every element at even position 2, 4, 6, … is the
numeral string of the rank of first appearance of the underlying object among
the objects seen so far in that walk of the root's traversal, and predicate
labels at odd positions stay literal. -/
theorem C2_anonymous_canonicalization
    (kg : KG) (cfg : WalkerCfg) (root : String) (w : List String)
    (hw : w ∈ extract kg cfg root)
    (hroot : isNumericStr root = false)
    (hlab : ∀ x ∈ labelsOf kg, isNumericStr x = false) :
    (∀ s, w.head? = some s → isNumericStr s = false) ∧
    ∃ w0 ∈ rawCombined kg cfg root, w = anonWalk w0 ∧
      w[0]? = w0[0]? ∧
      (∀ i, i % 2 = 1 → w[i]? = w0[i]?) ∧
      (∀ j, 2*j+2 < w.length → w[2*j+2]? = some (toString (firstSeenRank w0 j))) := by
  rw [extract] at hw
  have hw' := List.dedup_subset _ hw
  rw [List.mem_map] at hw'
  obtain ⟨w0, hw0, rfl⟩ := hw'
  constructor
  · intro s hs
    rw [anonWalk_head?] at hs
    have hsmem : s ∈ w0 := List.mem_of_mem_head? hs
    rcases rawCombined_labels kg cfg root w0 hw0 s hsmem with rfl | h
    · exact hroot
    · exact hlab s h
  · refine ⟨w0, hw0, rfl, anonWalk_zeroPos w0, fun i hi => anonWalk_oddPos w0 i hi,
      fun j hj => ?_⟩
    rw [anonWalk_length] at hj
    exact anonWalk_objPos w0 j hj

/-- Witness for C2: the one-edge graph, whose labels are not numerals. -/
theorem C2_anonymous_canonicalization_witness :
    (["A", "p", "1"] ∈ extract [("A", "p", "B")] ⟨1, none, false⟩ "A") ∧
    (isNumericStr "A" = false) ∧
    (∀ x ∈ labelsOf [("A", "p", "B")], isNumericStr x = false) ∧
    ((∀ s, (["A", "p", "1"] : List String).head? = some s → isNumericStr s = false) ∧
      ∃ w0 ∈ rawCombined [("A", "p", "B")] ⟨1, none, false⟩ "A",
        (["A", "p", "1"] : List String) = anonWalk w0 ∧
        (["A", "p", "1"] : List String)[0]? = w0[0]? ∧
        (∀ i, i % 2 = 1 → (["A", "p", "1"] : List String)[i]? = w0[i]?) ∧
        (∀ j, 2*j+2 < (["A", "p", "1"] : List String).length →
          (["A", "p", "1"] : List String)[2*j+2]? = some (toString (firstSeenRank w0 j)))) :=
  ⟨by decide, by decide, by decide,
    C2_anonymous_canonicalization [("A", "p", "B")] ⟨1, none, false⟩ "A"
      ["A", "p", "1"] (by decide) (by decide) (by decide)⟩

/-- C3: with `with_reverse = True`, every walk produced for a root has length
at most `(2 * max_depth + 1) * 2`, and when `max_walks = n` is set the number
of walks returned for the root is at most `n * n`. -/
theorem C3_reverse_bounds
    (kg : KG) (cfg : WalkerCfg) (root : String)
    (hrev : cfg.withReverse = true) :
    (∀ w ∈ extract kg cfg root, w.length ≤ (2 * cfg.maxDepth + 1) * 2) ∧
    (∀ n, cfg.maxWalks = some n → (extract kg cfg root).length ≤ n * n) := by
  constructor
  · intro w hw
    rw [extract] at hw
    have hw' := List.dedup_subset _ hw
    rw [List.mem_map] at hw'
    obtain ⟨w0, hw0, rfl⟩ := hw'
    rw [rawCombined, if_pos hrev] at hw0
    rw [List.mem_flatMap] at hw0
    obtain ⟨b, hb, hw0⟩ := hw0
    rw [List.mem_map] at hw0
    obtain ⟨f, hf, rfl⟩ := hw0
    have hb1 : b ∈ rawBwd kg cfg.maxDepth root := capWalks_subset _ _ hb
    rw [rawBwd] at hb1
    have hb2 := List.dedup_subset _ hb1
    rw [List.mem_map] at hb2
    obtain ⟨r, hr, rfl⟩ := hb2
    obtain ⟨hrlen, _⟩ := revWalks_shape kg _ root r hr
    have hf1 : f ∈ rawFwd kg cfg.maxDepth root := capWalks_subset _ _ hf
    rw [rawFwd] at hf1
    obtain ⟨hflen, _⟩ := fwdWalks_shape kg _ root f (List.dedup_subset _ hf1)
    rw [anonWalk_length, List.length_append, List.length_reverse, List.length_drop]
    omega
  · intro n hn
    rw [extract]
    have h1 := (List.dedup_sublist ((rawCombined kg cfg root).map anonWalk)).length_le
    rw [List.length_map] at h1
    refine le_trans h1 ?_
    rw [rawCombined, if_pos hrev, hn]
    rw [List.length_flatMap]
    simp only [Function.comp_def, List.length_map]
    rw [sum_map_constant]
    exact Nat.mul_le_mul (capWalks_length_le n _) (capWalks_length_le n _)

/-- Witness for C3: a two-edge graph with an incoming and an outgoing edge at
the root `A`, `max_depth type 1`, `max_walks = 2`, `with_reverse = true`. -/
theorem C3_reverse_bounds_witness :
    ((⟨1, some 2, true⟩ : WalkerCfg).withReverse = true) ∧
    (∀ w ∈ extract [("A", "p", "B"), ("C", "q", "A")] ⟨1, some 2, true⟩ "A",
      w.length ≤ (2 * (⟨1, some 2, true⟩ : WalkerCfg).maxDepth + 1) * 2) ∧
    (extract [("A", "p", "B"), ("C", "q", "A")] ⟨1, some 2, true⟩ "A").length ≤ 2 * 2 :=
  ⟨rfl,
    (C3_reverse_bounds [("A", "p", "B"), ("C", "q", "A")] ⟨1, some 2, true⟩ "A" rfl).1,
    (C3_reverse_bounds [("A", "p", "B"), ("C", "q", "A")] ⟨1, some 2, true⟩ "A" rfl).2 2 rfl⟩

/-- C4: with `max_walks = n` and `with_reverse = False`, `extract` returns at
most `n` walks per root, with no duplicated walks; and if fewer than `n`
distinct walks exist in the graph up to `max_depth`, it returns exactly the
same walks as the unbounded run: all existing distinct walks, canonicalized,
with nothing else and no padding. -/
theorem C4_max_walks_upper_bound (kg : KG) (d n : Nat) (root : String) :
    (extract kg ⟨d, some n, false⟩ root).length ≤ n ∧
    (extract kg ⟨d, some n, false⟩ root).Nodup ∧
    ((rawFwd kg d root).length < n →
      extract kg ⟨d, some n, false⟩ root = extract kg ⟨d, none, false⟩ root ∧
      ∀ w, w ∈ extract kg ⟨d, some n, false⟩ root ↔
        ∃ v ∈ fwdWalks kg d root, w = anonWalk v) := by
  have hraw : rawCombined kg ⟨d, some n, false⟩ root =
      capWalks (some n) (rawFwd kg d root) :=
    rawCombined_of_fwd kg ⟨d, some n, false⟩ root rfl
  refine ⟨?_, List.nodup_dedup _, fun hlt => ?_⟩
  · rw [extract]
    have h1 := (List.dedup_sublist ((rawCombined kg ⟨d, some n, false⟩ root).map anonWalk)).length_le
    rw [List.length_map] at h1
    refine le_trans h1 ?_
    rw [hraw]
    exact capWalks_length_le n _
  · have hcap : capWalks (some n) (rawFwd kg d root) = rawFwd kg d root :=
      List.take_of_length_le (le_of_lt hlt)
    have hnone : rawCombined kg ⟨d, some n, false⟩ root =
        rawCombined kg ⟨d, none, false⟩ root := by
      rw [hraw, hcap, rawCombined_of_fwd kg ⟨d, none, false⟩ root rfl]
      rfl
    constructor
    · rw [extract, extract, hnone]
    · intro w
      rw [extract, List.mem_dedup, List.mem_map]
      constructor
      · rintro ⟨v, hv, rfl⟩
        rw [hraw, hcap, rawFwd, List.mem_dedup] at hv
        exact ⟨v, hv, rfl⟩
      · rintro ⟨v, hv, rfl⟩
        refine ⟨v, ?_, rfl⟩
        rw [hraw, hcap, rawFwd, List.mem_dedup]
        exact hv

/-- Witness for C4: the one-edge graph has a single distinct walk, fewer than
`max_walks = 5`, so the capped run equals the unbounded run. -/
theorem C4_max_walks_upper_bound_witness :
    ((rawFwd [("A", "p", "B")] 1 "A").length < 5) ∧
    (extract [("A", "p", "B")] ⟨1, some 5, false⟩ "A").length ≤ 5 ∧
    (extract [("A", "p", "B")] ⟨1, some 5, false⟩ "A").Nodup ∧
    extract [("A", "p", "B")] ⟨1, some 5, false⟩ "A" =
      extract [("A", "p", "B")] ⟨1, none, false⟩ "A" :=
  ⟨by decide,
    (C4_max_walks_upper_bound [("A", "p", "B")] 1 5 "A").1,
    (C4_max_walks_upper_bound [("A", "p", "B")] 1 5 "A").2.1,
    ((C4_max_walks_upper_bound [("A", "p", "B")] 1 5 "A").2.2 (by decide)).1⟩

/-! Translation of `SPARQLConnector` (src/pyrdf2vec/connectors.py). -/

/-- Leading-match test of two character lists. -/
def leadMatch : List Char → List Char → Bool
  | [], _ => true
  | _ :: _, [] => false
  | a :: as, b :: bs => a == b && leadMatch as bs

/-- Substring test on character lists. -/
def hasSub : List Char → List Char → Bool
  | [], pat => pat.isEmpty
  | a :: rest, pat => leadMatch pat (a :: rest) || hasSub rest pat

/-- Model of Python's substring containment `pat in s`. -/
def strContains (s pat : String) : Bool := hasSub s.data pat.data

/-- One pass of the predicate-chain loop of `get_query`
(`for i in range(1, len(preds))`, appending `f"?o{i} . ?o{i} <{preds[i]}> "`
for each remaining predicate). -/
def predChainAux : Nat → List String → String
  | _, [] => ""
  | i, p :: rest =>
    "?o" ++ toString i ++ " . ?o" ++ toString i ++ " <" ++ p ++ "> " ++
      predChainAux (i+1) rest

/-- Translation of `SPARQLConnector.get_query`
(src/pyrdf2vec/connectors.py:172-204). `randomness` is the connector
attribute (default 1.0); the argument `r` stands for the value the source
reads as `r = random()` — a draw taken from the process-global `random`
module, not from any per-call seeded generator. Python floats are modelled as
rationals. -/
def get_query (randomness : ℚ) (entity : String) (preds : List String)
    (r : ℚ) : String :=
  let base :=
    match preds with
    | [] => "SELECT ?p ?o WHERE \x7b <" ++ entity ++ "> ?p "
    | p0 :: rest =>
      "SELECT ?o WHERE \x7b <" ++ entity ++ "> <" ++ p0 ++ "> " ++
        predChainAux 1 rest
  let q1 := base ++ "?o . "
  let q2 :=
    if strContains entity "www.wikidata.org" then
      q1 ++ "FILTER(CONTAINS(STR(?o), \"wikidata.org/entity/Q\")) "
    else if randomness ≥ r then
      q1 ++ "FILTER EXISTS \x7b ?o owl:sameAs ?WikidataEntity . FILTER(CONTAINS(STR(?WikidataEntity), \"wikidata.org/entity\")) \x7d . "
    else
      q1 ++ "FILTER NOT EXISTS \x7b ?o owl:sameAs ?WikidataEntity . FILTER(CONTAINS(STR(?WikidataEntity), \"wikidata.org/entity\")) \x7d . " ++
        "FILTER(CONTAINS(STR(?o), \"http://dbpedia.org/resource/\")) . " ++
        "FILTER(!CONTAINS(STR(?o), \"http://dbpedia.org/resource/File:\")) . " ++
        "FILTER(!CONTAINS(STR(?o), \"http://dbpedia.org/resource/Template:\")) . "
  q2 ++ "\x7d"

/-- Outcome of one `requests.get(url).json()` call: a parsed response or a
raised exception (connection error, HTTP failure, JSON decode failure). -/
inductive Attempt (α : Type) where
  | ok (response : α)
  | exn
deriving DecidableEq

/-- What the caller of `SPARQLConnector.fetch` observes. -/
inductive FetchResult (α : Type) where
  | result (response : α)
  | noneReturned
  | raised
deriving DecidableEq

/-- Translation of `SPARQLConnector.fetch`
(src/pyrdf2vec/connectors.py:143-170) as its control flow over the outcomes
of the at most two HTTP attempts. For the wikidata endpoint the first request
sits in a try/except whose handler performs a second request, prints its
status, and returns nothing (Python `None`); for every other endpoint there
is no handler and a failing request propagates its exception. -/
def fetch {α : Type} (isWikidataEndpoint : Bool)
    (attempt1 attempt2 : Attempt α) : FetchResult α :=
  if isWikidataEndpoint then
    match attempt1 with
    | .ok res => .result res
    | .exn =>
      match attempt2 with
      | .ok _ => .noneReturned
      | .exn => .raised
  else
    match attempt1 with
    | .ok res => .result res
    | .exn => .raised

/-- A literal produced by `res2literals`: a parsed float or a raw string. -/
inductive SPLit where
  | num (value : ℚ)
  | str (value : String)
deriving DecidableEq

/-- The result of `res2literals`: `np.NaN` for an empty response, one literal
for a single binding, a tuple for several. -/
inductive LitResult where
  | nan
  | single (l : SPLit)
  | tuple (ls : List SPLit)
deriving DecidableEq

/-- One step of the `res2literals` loop: `float(literal["o"]["value"])` when
it parses, the raw string otherwise. The float parser is the parameter
`tryFloat` (Python's `float(...)`, with floats as rationals). -/
def toLit (tryFloat : String → Option ℚ) (value : String) : SPLit :=
  match tryFloat value with
  | some q => .num q
  | none => .str value

/-- Translation of `SPARQLConnector.res2literals`
(src/pyrdf2vec/connectors.py:206-226); `res` is the list of the bindings'
`["o"]["value"]` entries. -/
def res2literals (tryFloat : String → Option ℚ) (res : List String) : LitResult :=
  if res.length = 0 then .nan
  else if (res.map (toLit tryFloat)).length > 1 then .tuple (res.map (toLit tryFloat))
  else .single ((res.map (toLit tryFloat)).headD (.str ""))

/-! Translation of `RDF2VecTransformer` (src/pyrdf2vec/rdf2vec.py). -/

/-- Modelled from the spec: the graphs module's `Vertex` is absent from the
source tree; it is a string label with a predicate flag (spec §3), and its
string rendering — applied by `fit` as `map(str, x)` — is its label (spec
§4.4: "each vertex rendered as its label"). -/
structure Vertex where
  label : String
  isPredicate : Bool
deriving DecidableEq

/-- String rendering of a vertex, as used for the Word2Vec sentences. -/
def vertexStr (v : Vertex) : String := v.label

/-- The error `fit` can raise. -/
inductive FitError where
  | instancesNotInGraph
deriving DecidableEq

/-- Translation of `RDF2VecTransformer.fit` (src/pyrdf2vec/rdf2vec.py:76-84),
abstracted over its collaborators: `kgIsRDFLoader` is the
`isinstance(kg, RDFLoader)` test, `vertices` the labels of `kg._vertices`,
`instances` the `str(instance)` forms, and `extracts` holds
`list(walker.extract(kg, instances))` for each configured walker in order.
The result is the list of sentences handed to Word2Vec, or the raised
ValueError. -/
def fit (kgIsRDFLoader : Bool) (vertices : List String)
    (instances : List String) (extracts : List (List (List Vertex))) :
    Except FitError (List (List String)) :=
  if kgIsRDFLoader && !(instances.all (fun i => vertices.contains i)) then
    .error .instancesNotInGraph
  else
    .ok ((extracts.flatten).map (fun walk => walk.map vertexStr))

/-- The errors `transform` can raise: sklearn's `NotFittedError` from
`check_is_fitted`, and the `ValueError` for out-of-vocabulary instances. -/
inductive TransformError where
  | notFitted
  | instanceNotInVocab
deriving DecidableEq

/-- Translation of `RDF2VecTransformer.transform`
(src/pyrdf2vec/rdf2vec.py:105-127): `fitted` is the `check_is_fitted`
condition, `wv` the fitted model's keyed vectors (`none` exactly when
`str(inst)` is out of vocabulary), `instances` the `str(inst)` forms; the
vector type `α` is abstract. -/
def transform {α : Type} (fitted : Bool) (wv : String → Option α)
    (instances : List String) : Except TransformError (List α) :=
  if !fitted then .error .notFitted
  else if !(instances.all (fun i => (wv i).isSome)) then .error .instanceNotInVocab
  else .ok (instances.filterMap wv)

/-! Claims about the connector and the transformer. -/

/-- Counterexample to C5: `get_query` reads the process-global random draw
`r = random()`. Over identical call inputs (same connector `randomness`,
entity, predicate chain), two runs whose global draws land on different sides
of `randomness` build different queries, so remote query construction does
not draw only from an explicitly seeded per-call source. -/
theorem C5_global_random_counterexample :
    (get_query (1/2) "http://dbpedia.org/resource/Belgium" [] (1/4) ==
      get_query (1/2) "http://dbpedia.org/resource/Belgium" [] (3/4)) = false := by
  have hw : strContains "http://dbpedia.org/resource/Belgium" "www.wikidata.org"
      = false := by decide
  have h1 : ((1:ℚ)/2) ≥ 1/4 := by norm_num
  have h2 : ¬ ((1:ℚ)/2 ≥ 3/4) := by norm_num
  simp only [get_query, hw, Bool.false_eq_true, if_false, if_pos h1, if_neg h2]
  decide

/-- C5 (amended): the walker model is a pure function of its inputs, but the
remote query construction depends on the process-global draw: its output is
determined by the call inputs together with the side of `randomness` on which
the global draw `r` falls. With the default `randomness = 1.0` every draw of
`random()` lies in `[0, 1)`, so the query is reproducible; with
`randomness < 1` it is not determined by the call inputs alone. -/
theorem C5_query_determined_by_draw_side
    (randomness : ℚ) (entity : String) (preds : List String) (r1 r2 : ℚ)
    (h : randomness ≥ r1 ↔ randomness ≥ r2) :
    get_query randomness entity preds r1 = get_query randomness entity preds r2 := by
  by_cases hw : strContains entity "www.wikidata.org"
  · simp only [get_query, hw, if_true]
  · by_cases h1 : randomness ≥ r1
    · have h2 := h.1 h1
      simp only [get_query, hw, Bool.false_eq_true, if_false, if_pos h1, if_pos h2]
    · have h2 := fun hh => h1 (h.2 hh)
      simp only [get_query, hw, Bool.false_eq_true, if_false, if_neg h1, if_neg h2]

/-- Witness for the amended C5: under the default `randomness = 1.0`, draws
`0` and `1/2` (both in `[0,1)`) yield the same query. -/
theorem C5_query_determined_by_draw_side_witness :
    (((1:ℚ) ≥ 0) ↔ ((1:ℚ) ≥ 1/2)) ∧
    get_query 1 "http://dbpedia.org/resource/Belgium" [] 0 =
      get_query 1 "http://dbpedia.org/resource/Belgium" [] (1/2) :=
  ⟨Iff.intro (fun _ => by norm_num) (fun _ => by norm_num),
    C5_query_determined_by_draw_side 1 "http://dbpedia.org/resource/Belgium" []
      0 (1/2) (Iff.intro (fun _ => by norm_num) (fun _ => by norm_num))⟩

/-- Counterexample to C6: when the knowledge graph is not an `RDFLoader`
instance (the `isinstance(kg, RDFLoader)` test is false), `fit` performs no
membership check at all: with instance `"x"` absent from the vertex set it
returns a corpus instead of raising the unknown-instance error. -/
theorem C6_no_check_counterexample :
    (([] : List String).contains "x" = false) ∧
    fit false [] ["x"] [] = .ok [] :=
  ⟨rfl, rfl⟩

/-- C6 (amended): only when the knowledge graph is an `RDFLoader` does `fit`
raise the distinguishable unknown-instance `ValueError` whenever some
instance's vertex is absent, and it does so before consuming any walker
output (the result does not depend on `extracts`); for a graph of any other
type the check is skipped. -/
theorem C6_rdfloader_instance_check
    (vertices instances : List String) (extracts : List (List (List Vertex)))
    (h : instances.all (fun i => vertices.contains i) = false) :
    fit true vertices instances extracts = .error .instancesNotInGraph ∧
    ∀ extracts2, fit true vertices instances extracts =
      fit true vertices instances extracts2 := by
  have hguard : (true && !(instances.all (fun i => vertices.contains i))) = true := by
    rw [h]
    rfl
  constructor
  · rw [fit, if_pos hguard]
  · intro extracts2
    rw [fit, if_pos hguard, fit, if_pos hguard]

/-- Witness for the amended C6: instance `"x"` is absent from the empty
vertex list of an `RDFLoader` graph, so `fit` raises. -/
theorem C6_rdfloader_instance_check_witness :
    ((["x"] : List String).all (fun i => ([] : List String).contains i) = false) ∧
    fit true [] ["x"] [] = .error .instancesNotInGraph :=
  ⟨by decide, (C6_rdfloader_instance_check [] ["x"] [] (by decide)).1⟩

/-- C7: a successful `fit` produces exactly the concatenation, in walker
order, of every configured walker's extracted walks — no deduplication across
walkers (multiplicities add up) — with each walk handed to Word2Vec as its
sequence of `str`-rendered vertex labels. -/
theorem C7_corpus_is_walker_concatenation
    (kgIsRDFLoader : Bool) (vertices instances : List String)
    (extracts : List (List (List Vertex))) (corpus : List (List String))
    (h : fit kgIsRDFLoader vertices instances extracts = .ok corpus) :
    corpus = (extracts.map (fun ws => ws.map (fun walk => walk.map vertexStr))).flatten ∧
    corpus.length = (extracts.map List.length).sum := by
  rw [fit] at h
  split at h
  · cases h
  · cases h
    constructor
    · rw [List.map_flatten]
    · rw [List.length_map, List.length_flatten]

/-- Witness for C7: two walkers that extracted the same single walk; the
corpus keeps both copies, rendered as label sequences. -/
theorem C7_corpus_is_walker_concatenation_witness :
    (fit false [] [] [[[⟨"a", false⟩]], [[⟨"a", false⟩]]] =
      .ok [["a"], ["a"]]) ∧
    ([["a"], ["a"]] : List (List String)) =
      (([[[⟨"a", false⟩]], [[⟨"a", false⟩]]] : List (List (List Vertex))).map
        (fun ws => ws.map (fun walk => walk.map vertexStr))).flatten ∧
    ([["a"], ["a"]] : List (List String)).length =
      (([[[⟨"a", false⟩]], [[⟨"a", false⟩]]] : List (List (List Vertex))).map
        List.length).sum :=
  ⟨rfl,
    (C7_corpus_is_walker_concatenation false [] []
      [[[⟨"a", false⟩]], [[⟨"a", false⟩]]] [["a"], ["a"]] rfl).1,
    (C7_corpus_is_walker_concatenation false [] []
      [[[⟨"a", false⟩]], [[⟨"a", false⟩]]] [["a"], ["a"]] rfl).2⟩

/-- Counterexample to C8: for a non-wikidata endpoint a failing request makes
`fetch` propagate the exception to its caller — the failure is not surfaced
as an empty edge set, and fetch can propagate a traversal-time error. -/
theorem C8_fetch_raises_counterexample :
    fetch false (Attempt.exn : Attempt (List String)) .exn = .raised ∧
    (fetch false (Attempt.exn : Attempt (List String)) .exn ==
      FetchResult.result []) = false :=
  ⟨rfl, rfl⟩

/-- C8 (amended): `fetch` returns the parsed response when the first request
succeeds; when it fails, a non-wikidata endpoint always propagates the
exception, while the wikidata endpoint retries once, returning Python `None`
on a successful retry (never an empty edge set) and propagating on a failed
one. Any empty-edge-set policy therefore lives outside `fetch`. -/
theorem C8_fetch_failure_behavior {α : Type} :
    (∀ (wiki : Bool) (res : α) (a2 : Attempt α),
      fetch wiki (.ok res) a2 = .result res) ∧
    (∀ res : α, fetch true (Attempt.exn : Attempt α) (.ok res) = .noneReturned) ∧
    (fetch true (Attempt.exn : Attempt α) .exn = .raised) ∧
    (∀ a2 : Attempt α, fetch false (Attempt.exn : Attempt α) a2 = .raised) :=
  ⟨fun wiki _ _ => by cases wiki <;> rfl, fun _ => rfl, rfl, fun _ => rfl⟩

/-- C9: `res2literals` maps the empty response to NaN, a one-binding response
to the single converted value, and a longer response to the tuple of
converted values in order, where each value converts to its parsed float when
`float(...)` succeeds and stays the raw string otherwise. -/
theorem C9_res2literals_shape (tryFloat : String → Option ℚ) :
    res2literals tryFloat [] = .nan ∧
    (∀ v, res2literals tryFloat [v] = .single (toLit tryFloat v)) ∧
    (∀ v1 v2 vs, res2literals tryFloat (v1 :: v2 :: vs) =
      .tuple ((v1 :: v2 :: vs).map (toLit tryFloat))) ∧
    (∀ v q, tryFloat v = some q → toLit tryFloat v = .num q) ∧
    (∀ v, tryFloat v = none → toLit tryFloat v = .str v) := by
  refine ⟨rfl, fun v => rfl, fun v1 v2 vs => ?_, fun v q h => ?_, fun v h => ?_⟩
  · rw [res2literals, if_neg (by simp), if_pos]
    simp only [List.length_map, List.length_cons]
    omega
  · rw [toLit, h]
  · rw [toLit, h]

/-- Witness for C9 at a concrete parser: `"4"` parses, `"x"` does not. -/
theorem C9_res2literals_shape_witness :
    ((fun s => if s = "4" then some (4:ℚ) else none) "4" = some 4) ∧
    (toLit (fun s => if s = "4" then some (4:ℚ) else none) "4" = .num 4) ∧
    ((fun s => if s = "4" then some (4:ℚ) else none) "x" = none) ∧
    (toLit (fun s => if s = "4" then some (4:ℚ) else none) "x" = .str "x") ∧
    (res2literals (fun s => if s = "4" then some (4:ℚ) else none) ["4", "x"] =
      .tuple [.num 4, .str "x"]) :=
  ⟨by simp, (C9_res2literals_shape _).2.2.2.1 "4" 4 (by simp),
    by simp, (C9_res2literals_shape _).2.2.2.2 "x" (by simp),
    (C9_res2literals_shape _).2.2.1 "4" "x" []⟩

theorem filterMap_all_some {α : Type} (f : String → Option α) :
    ∀ (l : List String), (∀ i ∈ l, (f i).isSome) →
      (l.filterMap f).length = l.length ∧
      ∀ j, j < l.length → (l.filterMap f)[j]? = f (l.getD j "") := by
  intro l
  induction l with
  | nil => exact fun _ => ⟨rfl, fun j hj => by simp at hj⟩
  | cons a t ih =>
    intro hall
    obtain ⟨b, hb⟩ := Option.isSome_iff_exists.1 (hall a (List.mem_cons_self a t))
    have hrest := ih (fun i hi => hall i (List.mem_cons_of_mem a hi))
    have hcons : (a :: t).filterMap f = b :: t.filterMap f := by
      rw [List.filterMap_cons_some hb]
    refine ⟨?_, ?_⟩
    · rw [hcons, List.length_cons, List.length_cons, hrest.1]
    · intro j hj
      cases j with
      | zero =>
        rw [hcons]
        simp only [List.getElem?_cons_zero, List.getD_cons_zero]
        exact hb.symm
      | succ j =>
        rw [hcons]
        simp only [List.getElem?_cons_succ, List.getD_cons_succ]
        exact hrest.2 j (by simpa using hj)

/-- C10: `transform` requires `fit` to have run; it raises the ValueError
whenever some requested instance's string form is absent from the fitted
vocabulary; otherwise it returns exactly one feature vector per instance — the
vocabulary's vector — in the order of the input list. -/
theorem C10_transform_vector_per_instance {α : Type} (fitted : Bool)
    (wv : String → Option α) (instances : List String) :
    (fitted = false → transform fitted wv instances = .error .notFitted) ∧
    (fitted = true → (∃ i ∈ instances, wv i = none) →
      transform fitted wv instances = .error .instanceNotInVocab) ∧
    (fitted = true → (∀ i ∈ instances, (wv i).isSome) →
      ∃ vecs, transform fitted wv instances = .ok vecs ∧
        vecs.length = instances.length ∧
        ∀ j, j < instances.length → vecs[j]? = wv (instances.getD j "")) := by
  refine ⟨fun hf => ?_, fun hf ⟨i, hi, hnone⟩ => ?_, fun hf hall => ?_⟩
  · rw [transform, hf]
    rfl
  · have hnall : instances.all (fun i => (wv i).isSome) = false := by
      rw [List.all_eq_false]
      exact ⟨i, hi, by simp [hnone]⟩
    rw [transform, hf, hnall]
    rfl
  · have hall' : instances.all (fun i => (wv i).isSome) = true :=
      List.all_eq_true.2 hall
    obtain ⟨hlen, hget⟩ := filterMap_all_some wv instances hall
    refine ⟨instances.filterMap wv, ?_, hlen, hget⟩
    rw [transform, hf, hall']
    rfl

/-- Witness for C10: a one-word vocabulary and the instance list `["a"]`. -/
theorem C10_transform_vector_per_instance_witness :
    (∀ i ∈ (["a"] : List String),
      ((fun s => if s = "a" then some 1 else none) i).isSome) ∧
    ∃ vecs, transform true (fun s => if s = "a" then some 1 else none) ["a"] =
        .ok vecs ∧
      vecs.length = (["a"] : List String).length ∧
      ∀ j, j < (["a"] : List String).length →
        vecs[j]? = (fun s => if s = "a" then some 1 else none)
          ((["a"] : List String).getD j "") :=
  ⟨by decide,
    (C10_transform_vector_per_instance true
      (fun s => if s = "a" then some 1 else none) ["a"]).2.2 rfl (by decide)⟩

end PyRDF2Vec
